import Mathlib

/-!
Verification of the M/M/S/S blocking-probability repository
(`js/erlangB.js`, `js/simulation.js`) via a shallow embedding.

Conventions of the embedding:

* JS double arithmetic is modelled by exact rationals `ℚ`.  Where a claim
  is about double-specific behaviour (overflow to `Infinity`, `NaN`), the
  theorems exhibit the exact magnitudes against the IEEE-754 double
  overflow threshold `2^1024`, or model the single `0/0` artifact
  explicitly.
* The JS server-count argument of `erlangBFormula` is a number that the
  claims exercise at integers (including negatives), so it is embedded as
  `S : ℤ`; the `for (k = 0; k <= S; k++)` loop runs `S + 1` times for
  `S ≥ 0` and zero times for `S < 0`, exactly as in JS.
* `Math.random()` produces a sequence of uniform draws, each transformed
  by `-Math.log(·)` into a standard-exponential variate before being
  scaled by `1/lambda` or `1/mu`.  Since `u ↦ -log u` maps `(0,1)` onto
  `(0,∞)`, the random source is abstracted as the stream
  `draws : ℕ → ℚ` of these already-transformed variates, consumed
  strictly left to right; the state records in `drawIdx` how many draws
  have been consumed, mirroring sequential calls to `Math.random()`.
* `setTimeout(() => serversInUse--, serviceTime * 1000)` registers a
  wall-clock timer.  Under JS run-to-completion semantics a timer
  callback can only run after the current synchronous call stack
  (the whole `while` loop and the `return`) has finished, so no decrement
  of `serversInUse` is ever observed by the loop or by the returned
  value; the embedding therefore performs no decrement.  The service
  draw is still consumed (it is drawn at the top of the loop body,
  before the admission test).
* The `while (currentTime < timeLimit)` loop is embedded with explicit
  fuel; `simLoop` returns `none` when the fuel runs out before the exit
  test succeeds, and `some finalState` when the loop exits as in JS.
-/

/-- Embedding of `factorial` from `js/erlangB.js`:
`n <= 1 ? 1 : n * factorial(n - 1)`.  JS numbers are exercised at
integers by this repository, so the argument is `ℤ`; note that every
`n ≤ 1` (including all negatives) returns `1`, exactly as in JS. -/
def factorial (n : ℤ) : ℤ :=
  if n ≤ 1 then 1 else n * factorial (n - 1)
termination_by n.toNat
decreasing_by omega

/-- The numerator `Math.pow(A, S) / factorial(S)` of `erlangBFormula`.
`Math.pow` at an integer exponent is `zpow`; the claims never exercise
the one divergent point `Math.pow(0, negative) = Infinity`. -/
def erlangBNumerator (A : ℚ) (S : ℤ) : ℚ :=
  A ^ S / (factorial S : ℚ)

/-- The accumulation loop of `erlangBFormula`:
`for (let k = 0; k <= S; k++) denominator += Math.pow(A, k) / factorial(k)`.
For `S ≥ 0` the loop body runs with `k = 0, 1, …, S`; for `S < 0` it
runs zero times and leaves `denominator = 0`. -/
def erlangBDenominator (A : ℚ) (S : ℤ) : ℚ :=
  (List.range (if 0 ≤ S then S.toNat + 1 else 0)).foldl
    (fun (acc : ℚ) (k : ℕ) => acc + A ^ k / (factorial (k : ℤ) : ℚ)) 0

/-- Embedding of `erlangBFormula(A, S)` from `js/erlangB.js`:
`numerator / denominator` with the two pieces above.  The embedding is
exact-rational; in particular the JS `x / 0` artifacts (`Infinity`,
`NaN`) appear here as a zero `erlangBDenominator`, which the
error-handling theorems expose directly. -/
def erlangBFormula (A : ℚ) (S : ℤ) : ℚ :=
  erlangBNumerator A S / erlangBDenominator A S

/-- The Erlang-B blocking probability exactly as the specification
writes it: `B(A, S) = (A^S / S!) / Σ_{k=0..S} (A^k / k!)`, over a
natural-number server count and `Nat.factorial`.  This is the spec-side
definition that the code-side `erlangBFormula` is compared against. -/
def erlangBClosedForm (A : ℚ) (n : ℕ) : ℚ :=
  (A ^ n / (Nat.factorial n : ℚ)) /
    ∑ k ∈ Finset.range (n + 1), A ^ k / (Nat.factorial k : ℚ)

/-- The mutable state of one run of `simulateBlockingProbability`:
the four `let`-variables of `js/simulation.js` plus `drawIdx`, the
number of `Math.random()` draws consumed so far. -/
structure SimState where
  blocked : ℕ
  served : ℕ
  currentTime : ℚ
  serversInUse : ℕ
  drawIdx : ℕ
deriving Repr, DecidableEq

/-- The initial state of `simulateBlockingProbability`:
`blocked = 0, served = 0, currentTime = 0, serversInUse = 0`, no draws
consumed. -/
def initState : SimState :=
  { blocked := 0, served := 0, currentTime := 0, serversInUse := 0, drawIdx := 0 }

/-- One iteration of the `while` body of `simulateBlockingProbability`:
draw `interArrival = -log(U)/lambda` and `serviceTime = -log(U)/mu`
(both drawn unconditionally, consuming two stream positions), advance
`currentTime`, then either admit (`serversInUse++, served++`, and a
`setTimeout` wall-clock decrement that never fires during the loop) or
reject (`blocked++`).  `serviceTime` is bound for fidelity; it affects
nothing the function returns. -/
def simStep (lambda mu : ℚ) (servers : ℕ) (draws : ℕ → ℚ) (s : SimState) :
    SimState :=
  let interArrival := draws s.drawIdx / lambda
  let _serviceTime := draws (s.drawIdx + 1) / mu
  let t := s.currentTime + interArrival
  if s.serversInUse < servers then
    { blocked := s.blocked, served := s.served + 1, currentTime := t,
      serversInUse := s.serversInUse + 1, drawIdx := s.drawIdx + 2 }
  else
    { blocked := s.blocked + 1, served := s.served, currentTime := t,
      serversInUse := s.serversInUse, drawIdx := s.drawIdx + 2 }

/-- The `while (currentTime < timeLimit)` loop, with explicit fuel.
`some s` is the state at the JS loop exit; `none` means the fuel ran
out before the exit test succeeded. -/
def simLoop (lambda mu : ℚ) (servers : ℕ) (timeLimit : ℚ) (draws : ℕ → ℚ) :
    ℕ → SimState → Option SimState
  | 0, s => if s.currentTime < timeLimit then none else some s
  | fuel + 1, s =>
      if s.currentTime < timeLimit then
        simLoop lambda mu servers timeLimit draws fuel
          (simStep lambda mu servers draws s)
      else some s

/-- The JS division `blocked / (blocked + served)` on the final
counters: when `blocked + served = 0` the JS result is the `0/0`
artifact `NaN`, modelled as `none`; otherwise `some` of the exact
ratio. -/
def ratioOrNaN (blocked served : ℕ) : Option ℚ :=
  if blocked + served = 0 then none
  else some ((blocked : ℚ) / ((blocked : ℚ) + (served : ℚ)))

/-- Embedding of `simulateBlockingProbability(lambda, mu, servers,
timeLimit)` from `js/simulation.js`, over the abstracted draw stream
and loop fuel.  Outer `none`: fuel exhausted; `some none`: the function
returns the `NaN` division artifact; `some (some q)`: it returns `q`. -/
def simulateBlockingProbability (lambda mu : ℚ) (servers : ℕ)
    (timeLimit : ℚ) (draws : ℕ → ℚ) (fuel : ℕ) : Option (Option ℚ) :=
  (simLoop lambda mu servers timeLimit draws fuel initState).map
    (fun s => ratioOrNaN s.blocked s.served)

/-- The orbit of the loop body from the initial state: `simIter … k` is
the state after `k` executions of the `while` body.  Every state the
loop passes through is `simIter … k` for some `k`. -/
def simIter (lambda mu : ℚ) (servers : ℕ) (draws : ℕ → ℚ) : ℕ → SimState
  | 0 => initState
  | k + 1 => simStep lambda mu servers draws (simIter lambda mu servers draws k)

/-- The concrete standard-exponential draw stream for the
departure-ordering scenario: inter-arrival draws `1`, `5` and a service
draw `1`, so with `lambda = mu = 1` the first arrival is at simulated
time `1`, its service lasts `1` (completion at time `2`), and the
second arrival is at time `6`. -/
def drawsC1 : ℕ → ℚ := fun n => if n = 2 then 5 else 1

/-! ### Basic facts about the embedded `factorial` -/

/-- Any argument `n ≤ 1` (in particular every negative JS number) makes
the source `factorial` return `1` at once. -/
theorem factorial_nonpos {n : ℤ} (h : n ≤ 1) : factorial n = 1 := by
  rw [factorial, if_pos h]

/-- On natural-number arguments the source `factorial` agrees with the
mathematical factorial. -/
theorem factorial_natCast : ∀ n : ℕ, factorial (n : ℤ) = (Nat.factorial n : ℤ) := by
  intro n
  induction n with
  | zero => rw [factorial]; norm_num [Nat.factorial]
  | succ k ih =>
      rw [factorial]
      rcases Nat.eq_zero_or_pos k with hk | hk
      · subst hk; norm_num [Nat.factorial]
      · have h1 : ¬ ((k : ℤ) + 1 ≤ 1) := by omega
        push_cast
        rw [if_neg h1]
        have h2 : (k : ℤ) + 1 - 1 = (k : ℤ) := by ring
        rw [h2, ih, Nat.factorial_succ]
        push_cast
        ring

/-! ### The accumulation loop as a finite sum -/

/-- A left fold of `+ f k` over `List.range n` is the sum of `f` over
`Finset.range n`. -/
theorem foldl_range_add (f : ℕ → ℚ) (n : ℕ) :
    (List.range n).foldl (fun acc k => acc + f k) 0 = ∑ k ∈ Finset.range n, f k := by
  induction n with
  | zero => simp
  | succ m ih =>
      rw [List.range_succ, List.foldl_append, ih, Finset.sum_range_succ]
      rfl

/-- For a non-negative server count the denominator loop of
`erlangBFormula` computes `Σ_{k=0..S} A^k / k!`. -/
theorem erlangBDenominator_eq_sum (A : ℚ) (S : ℤ) (hS : 0 ≤ S) :
    erlangBDenominator A S =
      ∑ k ∈ Finset.range (S.toNat + 1), A ^ k / (Nat.factorial k : ℚ) := by
  rw [erlangBDenominator, if_pos hS,
    foldl_range_add (fun k => A ^ k / (factorial (k : ℤ) : ℚ)) (S.toNat + 1)]
  refine Finset.sum_congr rfl fun k _ => ?_
  rw [factorial_natCast k]
  push_cast
  ring

/-- On its intended domain (`S ≥ 0`) the code's `erlangBFormula` is
exactly the specification's closed form `B(A, S)` in exact rational
arithmetic. -/
theorem erlangB_eq_closedForm (A : ℚ) (S : ℤ) (hS : 0 ≤ S) :
    erlangBFormula A S = erlangBClosedForm A S.toNat := by
  obtain ⟨n, rfl⟩ : ∃ n : ℕ, S = (n : ℤ) := ⟨S.toNat, (Int.toNat_of_nonneg hS).symm⟩
  rw [erlangBFormula, erlangBClosedForm, erlangBNumerator,
    erlangBDenominator_eq_sum A (n : ℤ) (Int.natCast_nonneg n),
    Int.toNat_natCast, zpow_natCast, factorial_natCast]
  push_cast
  ring

/-! ### Claim C2 -/

/-- C2: for every offered load `A ≥ 0` and non-negative integer server
count `S`, `erlangBFormula(A, S)` equals the Erlang-B blocking
probability `B(A, S) = (A^S / S!) / Σ_{k=0..S} (A^k / k!)` — exactly,
in the exact-rational model of the code's arithmetic (finite-precision
deviations of the double evaluation are the subject of C3). -/
theorem erlangB_matches_closed_form (A : ℚ) (S : ℤ) (_hA : 0 ≤ A) (hS : 0 ≤ S) :
    erlangBFormula A S = erlangBClosedForm A S.toNat :=
  erlangB_eq_closedForm A S hS

/-- Witness for C2 at the concrete input `A = 1`, `S = 1`. -/
theorem erlangB_matches_closed_form_witness :
    erlangBFormula 1 1 = erlangBClosedForm 1 ((1 : ℤ).toNat) :=
  erlangB_matches_closed_form 1 1 (by norm_num) (by norm_num)

/-! ### Claim C5 -/

/-- Counterexample to C5 as stated: at the degenerate input
`A = 0, S = 0` the code returns `1` (`Math.pow(0,0) = 1` makes both the
numerator and the denominator equal `1`), not the claimed `0`. -/
theorem erlangB_zero_zero_ne_zero : ¬ (erlangBFormula 0 0 = 0) := by
  norm_num [erlangBFormula, erlangBNumerator, erlangBDenominator, List.range,
    List.range.loop, factorial_nonpos]

/-- C5 amended: `erlangBFormula(0, S) = 0` for every server count
`S ≥ 1`, while the degenerate no-server case `erlangBFormula(0, 0)`
equals `1` (with zero servers every arrival is blocked, in agreement
with the specification's own rule `erlangB(A, 0) = 1`). -/
theorem erlangB_zero_load :
    (∀ S : ℤ, 1 ≤ S → erlangBFormula 0 S = 0) ∧ erlangBFormula 0 0 = 1 := by
  constructor
  · intro S hS
    have hnum : erlangBNumerator 0 S = 0 := by
      rw [erlangBNumerator, zero_zpow S (by omega)]
      norm_num
    rw [erlangBFormula, hnum, zero_div]
  · norm_num [erlangBFormula, erlangBNumerator, erlangBDenominator, List.range,
      List.range.loop, factorial_nonpos]

/-- Witness for the amended C5 at the concrete input `S = 1`. -/
theorem erlangB_zero_load_witness : erlangBFormula 0 1 = 0 :=
  erlangB_zero_load.1 1 (by norm_num)

/-! ### Claim C8 -/

/-- C8: `erlangBFormula` has no validation path at all.  At the invalid
input `A = 1, S = -1` (negative server count) the `for` loop body never
runs, so the code reaches the final division with denominator `0` and
numerator `Math.pow(1,-1)/factorial(-1) = 1`; in JS this returns the
silently wrong value `1 / 0 = Infinity` instead of any `InvalidInput`
failure. -/
theorem erlangB_negative_servers_divides_by_zero :
    erlangBDenominator 1 (-1) = 0 ∧ erlangBNumerator 1 (-1) = 1 := by
  constructor
  · norm_num [erlangBDenominator]
  · norm_num [erlangBNumerator, factorial_nonpos]

/-! ### Claim C3 -/

set_option maxRecDepth 40000 in
/-- C3: the two subterms that `erlangBFormula(100, 200)` evaluates
independently before dividing — `Math.pow(100, 200)` and
`factorial(200)` — each exceed `2^1024`, the smallest magnitude that
overflows an IEEE-754 double to `Infinity`.  The JS evaluation of the
numerator is therefore `Infinity / Infinity = NaN`, so the function
does not return a finite value in `[0, 1]` at this input (the exact
mathematical value would lie in `[0, 1]`; the direct power/factorial
formulation is what destroys it). -/
theorem erlangB_overflow_at_100_200 :
    (2 : ℚ) ^ (1024 : ℕ) < (100 : ℚ) ^ (200 : ℤ) ∧
    (2 : ℤ) ^ (1024 : ℕ) < factorial 200 := by
  constructor
  · have h : ((200 : ℕ) : ℤ) = (200 : ℤ) := by norm_num
    rw [← h, zpow_natCast]
    have hnat : (2 : ℕ) ^ 1024 < 100 ^ 200 := by decide
    exact_mod_cast hnat
  · have h : ((200 : ℕ) : ℤ) = (200 : ℤ) := by norm_num
    rw [← h, factorial_natCast 200]
    have hnat : 2 ^ 1024 < Nat.factorial 200 := by decide
    exact_mod_cast hnat

/-! ### Monotonicity of the closed form (Claim C7) -/

/-- The Erlang-B denominator `Σ_{k=0..n} A^k / k!` is positive for
`A ≥ 0` (its `k = 0` term is `1`). -/
theorem erlangBSum_pos (A : ℚ) (n : ℕ) (hA : 0 ≤ A) :
    0 < ∑ k ∈ Finset.range (n + 1), A ^ k / (Nat.factorial k : ℚ) := by
  apply Finset.sum_pos'
  · intro k _
    have h1 : (0 : ℚ) ≤ A ^ k := pow_nonneg hA k
    have h2 : (0 : ℚ) < (Nat.factorial k : ℚ) := by
      exact_mod_cast Nat.factorial_pos k
    exact div_nonneg h1 h2.le
  · refine ⟨0, Finset.mem_range.mpr (Nat.succ_pos n), ?_⟩
    norm_num [Nat.factorial]

/-- Cross inequality for powers: if `0 ≤ A1 ≤ A2` and `k ≤ n` then
`A1^n * A2^k ≤ A2^n * A1^k`. -/
theorem pow_cross_le (A1 A2 : ℚ) (h1 : 0 ≤ A1) (h12 : A1 ≤ A2) {k n : ℕ}
    (hk : k ≤ n) : A1 ^ n * A2 ^ k ≤ A2 ^ n * A1 ^ k := by
  have h2 : 0 ≤ A2 := le_trans h1 h12
  have hn : n = (n - k) + k := (Nat.sub_add_cancel hk).symm
  rw [hn, pow_add, pow_add]
  have hle : A1 ^ (n - k) ≤ A2 ^ (n - k) := pow_le_pow_left₀ h1 h12 _
  calc A1 ^ (n - k) * A1 ^ k * A2 ^ k
      = A1 ^ (n - k) * (A1 ^ k * A2 ^ k) := by ring
    _ ≤ A2 ^ (n - k) * (A1 ^ k * A2 ^ k) := by
        apply mul_le_mul_of_nonneg_right hle
        exact mul_nonneg (pow_nonneg h1 k) (pow_nonneg h2 k)
    _ = A2 ^ (n - k) * A2 ^ k * A1 ^ k := by ring

/-- The closed form is monotone non-decreasing in the offered load. -/
theorem closedForm_mono_load (A1 A2 : ℚ) (n : ℕ) (h1 : 0 ≤ A1) (h12 : A1 ≤ A2) :
    erlangBClosedForm A1 n ≤ erlangBClosedForm A2 n := by
  have h2 : 0 ≤ A2 := le_trans h1 h12
  rw [erlangBClosedForm, erlangBClosedForm,
    div_le_div_iff₀ (erlangBSum_pos A1 n h1) (erlangBSum_pos A2 n h2),
    Finset.mul_sum, Finset.mul_sum]
  apply Finset.sum_le_sum
  intro k hk
  have hkn : k ≤ n := Nat.lt_succ_iff.mp (Finset.mem_range.mp hk)
  rw [div_mul_div_comm, div_mul_div_comm]
  have hden : (0 : ℚ) < (Nat.factorial n : ℚ) * (Nat.factorial k : ℚ) := by
    have hn' : (0 : ℚ) < (Nat.factorial n : ℚ) := by exact_mod_cast Nat.factorial_pos n
    have hk' : (0 : ℚ) < (Nat.factorial k : ℚ) := by exact_mod_cast Nat.factorial_pos k
    exact mul_pos hn' hk'
  exact (div_le_div_iff_of_pos_right hden).mpr (pow_cross_le A1 A2 h1 h12 hkn)

/-- One-step antitonicity in the server count:
`B(A, n+1) ≤ B(A, n)` for `A ≥ 0`, via termwise comparison of the
cross-multiplied sums. -/
theorem closedForm_anti_servers_succ (A : ℚ) (n : ℕ) (hA : 0 ≤ A) :
    erlangBClosedForm A (n + 1) ≤ erlangBClosedForm A n := by
  rw [erlangBClosedForm, erlangBClosedForm,
    div_le_div_iff₀ (erlangBSum_pos A (n + 1) hA) (erlangBSum_pos A n hA),
    Finset.mul_sum, Finset.mul_sum,
    Finset.sum_range_succ'
      (fun k => A ^ n / (Nat.factorial n : ℚ) * (A ^ k / (Nat.factorial k : ℚ)))
      (n + 1)]
  have hmain : ∀ k ∈ Finset.range (n + 1),
      A ^ (n + 1) / (Nat.factorial (n + 1) : ℚ) * (A ^ k / (Nat.factorial k : ℚ)) ≤
      A ^ n / (Nat.factorial n : ℚ) * (A ^ (k + 1) / (Nat.factorial (k + 1) : ℚ)) := by
    intro k hk
    have hkn : k ≤ n := Nat.lt_succ_iff.mp (Finset.mem_range.mp hk)
    rw [div_mul_div_comm, div_mul_div_comm, ← pow_add, ← pow_add]
    have hexp : n + 1 + k = n + (k + 1) := by ring
    rw [hexp]
    have hfc : (Nat.factorial n : ℚ) * (Nat.factorial (k + 1) : ℚ) ≤
        (Nat.factorial (n + 1) : ℚ) * (Nat.factorial k : ℚ) := by
      have hnat : Nat.factorial n * Nat.factorial (k + 1) ≤
          Nat.factorial (n + 1) * Nat.factorial k := by
        rw [Nat.factorial_succ, Nat.factorial_succ]
        calc Nat.factorial n * ((k + 1) * Nat.factorial k)
            = (k + 1) * (Nat.factorial n * Nat.factorial k) := by ring
          _ ≤ (n + 1) * (Nat.factorial n * Nat.factorial k) :=
              Nat.mul_le_mul_right _ (by omega)
          _ = (n + 1) * Nat.factorial n * Nat.factorial k := by ring
      exact_mod_cast hnat
    have hd1 : (0 : ℚ) < (Nat.factorial n : ℚ) * (Nat.factorial (k + 1) : ℚ) := by
      have ha : (0 : ℚ) < (Nat.factorial n : ℚ) := by exact_mod_cast Nat.factorial_pos n
      have hb : (0 : ℚ) < (Nat.factorial (k + 1) : ℚ) := by
        exact_mod_cast Nat.factorial_pos (k + 1)
      exact mul_pos ha hb
    exact div_le_div_of_nonneg_left (pow_nonneg hA (n + (k + 1))) hd1 hfc
  calc ∑ k ∈ Finset.range (n + 1),
          A ^ (n + 1) / (Nat.factorial (n + 1) : ℚ) * (A ^ k / (Nat.factorial k : ℚ))
      ≤ ∑ k ∈ Finset.range (n + 1),
          A ^ n / (Nat.factorial n : ℚ) * (A ^ (k + 1) / (Nat.factorial (k + 1) : ℚ)) :=
        Finset.sum_le_sum hmain
    _ ≤ (∑ k ∈ Finset.range (n + 1),
          A ^ n / (Nat.factorial n : ℚ) * (A ^ (k + 1) / (Nat.factorial (k + 1) : ℚ))) +
          A ^ n / (Nat.factorial n : ℚ) * (A ^ 0 / (Nat.factorial 0 : ℚ)) := by
        apply le_add_of_nonneg_right
        have ha : (0 : ℚ) ≤ A ^ n := pow_nonneg hA n
        have hb : (0 : ℚ) < (Nat.factorial n : ℚ) := by exact_mod_cast Nat.factorial_pos n
        norm_num [Nat.factorial]
        positivity

/-- Antitonicity in the server count for any `m ≤ n`. -/
theorem closedForm_anti_servers (A : ℚ) (hA : 0 ≤ A) {m n : ℕ} (h : m ≤ n) :
    erlangBClosedForm A n ≤ erlangBClosedForm A m := by
  induction n, h using Nat.le_induction with
  | base => exact le_rfl
  | succ n _ ih => exact le_trans (closedForm_anti_servers_succ A n hA) ih

/-- C7: in the exact-rational model, `erlangBFormula` is monotone
non-decreasing in the offered load `A` for any fixed server count
`S ≥ 0`, and monotone non-increasing in the server count for any fixed
load `A ≥ 0`. -/
theorem erlangB_monotonicity :
    (∀ (S : ℤ) (A1 A2 : ℚ), 0 ≤ S → 0 ≤ A1 → A1 ≤ A2 →
        erlangBFormula A1 S ≤ erlangBFormula A2 S) ∧
    (∀ (A : ℚ) (S1 S2 : ℤ), 0 ≤ A → 0 ≤ S1 → S1 ≤ S2 →
        erlangBFormula A S2 ≤ erlangBFormula A S1) := by
  constructor
  · intro S A1 A2 hS h1 h12
    rw [erlangB_eq_closedForm A1 S hS, erlangB_eq_closedForm A2 S hS]
    exact closedForm_mono_load A1 A2 S.toNat h1 h12
  · intro A S1 S2 hA hS1 hS12
    have hS2 : 0 ≤ S2 := le_trans hS1 hS12
    rw [erlangB_eq_closedForm A S1 hS1, erlangB_eq_closedForm A S2 hS2]
    exact closedForm_anti_servers A hA (Int.toNat_le_toNat hS12)

/-- Witness for C7 at the concrete inputs
`(A1, A2, S) = (1, 2, 1)` and `(A, S1, S2) = (1, 1, 2)`. -/
theorem erlangB_monotonicity_witness :
    erlangBFormula 1 1 ≤ erlangBFormula 2 1 ∧
    erlangBFormula 1 2 ≤ erlangBFormula 1 1 :=
  ⟨erlangB_monotonicity.1 1 1 2 (by norm_num) (by norm_num) (by norm_num),
   erlangB_monotonicity.2 1 1 2 (by norm_num) (by norm_num) (by norm_num)⟩

/-! ### Step lemmas for the simulation loop -/

/-- Every execution of the loop body accounts for exactly one arrival:
`blocked + served` grows by one, in both branches. -/
theorem simStep_counters (lambda mu : ℚ) (servers : ℕ) (draws : ℕ → ℚ)
    (s : SimState) :
    (simStep lambda mu servers draws s).blocked +
      (simStep lambda mu servers draws s).served = s.blocked + s.served + 1 := by
  by_cases h : s.serversInUse < servers <;> simp [simStep, h] <;> omega

/-- Every execution of the loop body consumes exactly two draws
(`interArrival` and `serviceTime`), in both branches. -/
theorem simStep_drawIdx (lambda mu : ℚ) (servers : ℕ) (draws : ℕ → ℚ)
    (s : SimState) :
    (simStep lambda mu servers draws s).drawIdx = s.drawIdx + 2 := by
  by_cases h : s.serversInUse < servers <;> simp [simStep, h]

/-- The loop body never decreases `serversInUse` (the `setTimeout`
decrement is a wall-clock callback that cannot run during the
synchronous loop). -/
theorem simStep_serversInUse_mono (lambda mu : ℚ) (servers : ℕ)
    (draws : ℕ → ℚ) (s : SimState) :
    s.serversInUse ≤ (simStep lambda mu servers draws s).serversInUse := by
  by_cases h : s.serversInUse < servers <;> simp [simStep, h]

/-- The loop body keeps `serversInUse ≤ servers`. -/
theorem simStep_serversInUse_capped (lambda mu : ℚ) (servers : ℕ)
    (draws : ℕ → ℚ) (s : SimState) (hs : s.serversInUse ≤ servers) :
    (simStep lambda mu servers draws s).serversInUse ≤ servers := by
  by_cases h : s.serversInUse < servers <;> simp [simStep, h] <;> omega

/-- When the pool is full the loop body blocks the arrival: `blocked`
grows, `served` and `serversInUse` stay. -/
theorem simStep_full_blocks (lambda mu : ℚ) (servers : ℕ) (draws : ℕ → ℚ)
    (s : SimState) (hs : s.serversInUse = servers) :
    (simStep lambda mu servers draws s).blocked = s.blocked + 1 ∧
    (simStep lambda mu servers draws s).served = s.served ∧
    (simStep lambda mu servers draws s).serversInUse = servers := by
  have h : ¬ (s.serversInUse < servers) := by omega
  simp [simStep, h, hs]

/-- Along the orbit, `serversInUse` never exceeds `servers`. -/
theorem simIter_serversInUse_le (lambda mu : ℚ) (servers : ℕ)
    (draws : ℕ → ℚ) : ∀ k : ℕ,
    (simIter lambda mu servers draws k).serversInUse ≤ servers := by
  intro k
  induction k with
  | zero => simp [simIter, initState]
  | succ m ih =>
      rw [simIter]
      exact simStep_serversInUse_capped lambda mu servers draws _ ih

/-! ### Claim C9 -/

/-- C9: during one synchronous run, `serversInUse` never decreases from
one loop iteration to the next (timer callbacks cannot fire before the
function returns), it always satisfies `serversInUse ≤ servers`
(non-negativity is by the `ℕ` carrier), and once it has reached
`servers` the next arrival is blocked — `blocked` grows, `served` does
not, and the pool stays full. -/
theorem serversInUse_monotone_and_capped (lambda mu : ℚ) (servers : ℕ)
    (draws : ℕ → ℚ) (k : ℕ) :
    (simIter lambda mu servers draws k).serversInUse ≤
      (simIter lambda mu servers draws (k + 1)).serversInUse ∧
    (simIter lambda mu servers draws k).serversInUse ≤ servers ∧
    ((simIter lambda mu servers draws k).serversInUse = servers →
      (simIter lambda mu servers draws (k + 1)).blocked =
        (simIter lambda mu servers draws k).blocked + 1 ∧
      (simIter lambda mu servers draws (k + 1)).served =
        (simIter lambda mu servers draws k).served ∧
      (simIter lambda mu servers draws (k + 1)).serversInUse = servers) := by
  refine ⟨?_, simIter_serversInUse_le lambda mu servers draws k, ?_⟩
  · rw [simIter]
    exact simStep_serversInUse_mono lambda mu servers draws _
  · intro hfull
    rw [simIter]
    exact simStep_full_blocks lambda mu servers draws _ hfull

/-- Witness for C9 at the concrete input `servers = 0`, `k = 0`, where
the pool is already (vacuously) full and the first arrival is blocked. -/
theorem serversInUse_monotone_and_capped_witness :
    (simIter 1 1 0 (fun _ => 1) 1).blocked =
      (simIter 1 1 0 (fun _ => 1) 0).blocked + 1 ∧
    (simIter 1 1 0 (fun _ => 1) 1).served = (simIter 1 1 0 (fun _ => 1) 0).served ∧
    (simIter 1 1 0 (fun _ => 1) 1).serversInUse = 0 :=
  (serversInUse_monotone_and_capped 1 1 0 (fun _ => 1) 0).2.2 (by simp [simIter, initState])

/-! ### Loop-level invariants -/

/-- If the loop exits with `some s`, the counters never shrank along
the way. -/
theorem simLoop_counters_le (lambda mu : ℚ) (servers : ℕ) (timeLimit : ℚ)
    (draws : ℕ → ℚ) : ∀ (fuel : ℕ) (s0 s : SimState),
    simLoop lambda mu servers timeLimit draws fuel s0 = some s →
    s0.blocked + s0.served ≤ s.blocked + s.served := by
  intro fuel
  induction fuel with
  | zero =>
      intro s0 s h
      rw [simLoop] at h
      split at h
      · exact absurd h (by simp)
      · obtain rfl : s0 = s := by injection h
        exact le_rfl
  | succ n ih =>
      intro s0 s h
      rw [simLoop] at h
      split at h
      · have hle := ih (simStep lambda mu servers draws s0) s h
        have hstep := simStep_counters lambda mu servers draws s0
        omega
      · obtain rfl : s0 = s := by injection h
        exact le_rfl

/-- If the loop exits with `some s`, the two-draws-per-arrival
accounting is preserved from the start state to the exit state. -/
theorem simLoop_draw_accounting (lambda mu : ℚ) (servers : ℕ)
    (timeLimit : ℚ) (draws : ℕ → ℚ) : ∀ (fuel : ℕ) (s0 s : SimState),
    simLoop lambda mu servers timeLimit draws fuel s0 = some s →
    s0.drawIdx = 2 * (s0.blocked + s0.served) →
    s.drawIdx = 2 * (s.blocked + s.served) := by
  intro fuel
  induction fuel with
  | zero =>
      intro s0 s h hinv
      rw [simLoop] at h
      split at h
      · exact absurd h (by simp)
      · obtain rfl : s0 = s := by injection h
        exact hinv
  | succ n ih =>
      intro s0 s h hinv
      rw [simLoop] at h
      split at h
      · refine ih (simStep lambda mu servers draws s0) s h ?_
        have hstep := simStep_counters lambda mu servers draws s0
        have hdraw := simStep_drawIdx lambda mu servers draws s0
        omega
      · obtain rfl : s0 = s := by injection h
        exact hinv

/-! ### Claim C4 -/

/-- C4: `simulateBlockingProbability` has no `InsufficientSamples`
path.  At `timeLimit = 0` (the only way this code ends a run with
`served + blocked = 0`, since any positive horizon admits at least one
loop iteration) the `while` guard fails immediately and the function
returns the unflagged `0/0` division artifact — JS `NaN`, modelled as
the inner `none`. -/
theorem zero_arrivals_returns_NaN_artifact :
    simulateBlockingProbability 1 1 1 0 (fun _ => 1) 0 = some none := by
  norm_num [simulateBlockingProbability, simLoop, initState, ratioOrNaN]

/-! ### Claim C1 -/

/-- C1: with `servers = 1`, `lambda = mu = 1`, `timeLimit = 2` and the
`drawsC1` stream, the first arrival (time `1`) is served and would
complete at simulated time `1 + 1 = 2`, strictly before the second
arrival at time `1 + 5 = 6` — yet the run blocks the second arrival
(`served = 1`, `blocked = 1`, reporting `1/2`), because the
`setTimeout` decrement is never reconciled against the simulated
clock.  The claim demands `served = 2`, `blocked = 0`. -/
theorem departure_ordering_not_reconciled :
    drawsC1 0 / 1 + drawsC1 1 / 1 < drawsC1 0 / 1 + drawsC1 2 / 1 ∧
    simLoop 1 1 1 2 drawsC1 2 initState = some (SimState.mk 1 1 6 1 4) ∧
    simulateBlockingProbability 1 1 1 2 drawsC1 2 = some (some (1 / 2)) := by
  refine ⟨by norm_num [drawsC1], ?_, ?_⟩
  · norm_num [simLoop, simStep, initState, drawsC1]
  · norm_num [simulateBlockingProbability, simLoop, simStep, initState, drawsC1,
      ratioOrNaN]

/-! ### Claim C6 -/

/-- Counterexample to C6 as stated: in the two-arrival run above, one
arrival is admitted and one is blocked, yet `4` draws were consumed —
not the `3` (two inter-arrival draws plus one service draw) that the
claim predicts, because the service draw is taken at the top of the
loop body before the admission test, also for blocked arrivals. -/
theorem blocked_arrival_consumes_service_draw :
    simLoop 1 1 1 2 drawsC1 2 initState = some (SimState.mk 1 1 6 1 4) ∧
    (SimState.mk 1 1 6 1 4).drawIdx ≠
      ((SimState.mk 1 1 6 1 4).served + (SimState.mk 1 1 6 1 4).blocked) +
        (SimState.mk 1 1 6 1 4).served := by
  constructor
  · norm_num [simLoop, simStep, initState, drawsC1]
  · simp

/-- C6 amended: every arrival — admitted or blocked — consumes exactly
one inter-arrival draw and one service-time draw, so a completed run
has consumed exactly `2 · (blocked + served)` draws; for a blocked
arrival the drawn service duration is simply discarded (no departure
is scheduled and it does not influence the result). -/
theorem draws_consumed_two_per_arrival (lambda mu : ℚ) (servers : ℕ)
    (timeLimit : ℚ) (draws : ℕ → ℚ) (fuel : ℕ) (s : SimState)
    (hrun : simLoop lambda mu servers timeLimit draws fuel initState = some s) :
    s.drawIdx = 2 * (s.blocked + s.served) :=
  simLoop_draw_accounting lambda mu servers timeLimit draws fuel initState s hrun
    (by simp [initState])

/-- Witness for the amended C6 on the concrete two-arrival run. -/
theorem draws_consumed_two_per_arrival_witness :
    (SimState.mk 1 1 6 1 4).drawIdx =
      2 * ((SimState.mk 1 1 6 1 4).blocked + (SimState.mk 1 1 6 1 4).served) :=
  draws_consumed_two_per_arrival 1 1 1 2 drawsC1 2 (SimState.mk 1 1 6 1 4)
    (by norm_num [simLoop, simStep, initState, drawsC1])

/-! ### Claim C10 -/

/-- C10: for any `timeLimit > 0` and `lambda > 0`, a completed run has
executed the loop body at least once (the arrival that crosses the
horizon is still counted), so `blocked + served ≥ 1` and the returned
value is a genuine ratio in `[0, 1]` — never the `0/0` artifact. -/
theorem sim_positive_horizon_ratio_defined (lambda mu : ℚ) (servers : ℕ)
    (timeLimit : ℚ) (draws : ℕ → ℚ) (fuel : ℕ) (s : SimState)
    (hT : 0 < timeLimit) (_hl : 0 < lambda)
    (hrun : simLoop lambda mu servers timeLimit draws fuel initState = some s) :
    1 ≤ s.blocked + s.served ∧
    ∃ q : ℚ, simulateBlockingProbability lambda mu servers timeLimit draws fuel =
        some (some q) ∧ 0 ≤ q ∧ q ≤ 1 := by
  have hc : initState.currentTime < timeLimit := by simpa [initState] using hT
  have h1 : 1 ≤ s.blocked + s.served := by
    cases fuel with
    | zero =>
        rw [simLoop, if_pos hc] at hrun
        exact absurd hrun (by simp)
    | succ n =>
        rw [simLoop, if_pos hc] at hrun
        have hle := simLoop_counters_le lambda mu servers timeLimit draws n
          (simStep lambda mu servers draws initState) s hrun
        have hstep := simStep_counters lambda mu servers draws initState
        have hib : initState.blocked = 0 := rfl
        have his : initState.served = 0 := rfl
        rw [hib, his] at hstep
        omega
  have hne : s.blocked + s.served ≠ 0 := by omega
  refine ⟨h1, (s.blocked : ℚ) / ((s.blocked : ℚ) + (s.served : ℚ)), ?_, ?_, ?_⟩
  · rw [simulateBlockingProbability, hrun, Option.map_some', ratioOrNaN, if_neg hne]
  · have hb : (0 : ℚ) ≤ (s.blocked : ℚ) := Nat.cast_nonneg _
    have hv : (0 : ℚ) ≤ (s.served : ℚ) := Nat.cast_nonneg _
    exact div_nonneg hb (by linarith)
  · have hpos : (0 : ℚ) < (s.blocked : ℚ) + (s.served : ℚ) := by
      have : (0 : ℚ) < ((s.blocked + s.served : ℕ) : ℚ) := by
        exact_mod_cast Nat.pos_of_ne_zero hne
      push_cast at this
      linarith
    rw [div_le_one hpos]
    have hv : (0 : ℚ) ≤ (s.served : ℚ) := Nat.cast_nonneg _
    linarith

/-- Witness for C10: a one-iteration run whose only arrival overshoots
the horizon and is still served. -/
theorem sim_positive_horizon_ratio_defined_witness :
    1 ≤ (SimState.mk 0 1 2 1 2).blocked + (SimState.mk 0 1 2 1 2).served ∧
    ∃ q : ℚ, simulateBlockingProbability 1 1 1 1 (fun _ => 2) 1 =
        some (some q) ∧ 0 ≤ q ∧ q ≤ 1 :=
  sim_positive_horizon_ratio_defined 1 1 1 1 (fun _ => 2) 1 (SimState.mk 0 1 2 1 2)
    (by norm_num) (by norm_num)
    (by norm_num [simLoop, simStep, initState])
